import Mathlib

/- Verification of the agent lifecycle and execution engine of an
agent-hosting platform.  The definitions below are shallow embeddings of
`app/core/engine.py` (agent cache and invalidation, tool assembly,
streaming executor, memory cleanup) and of
`skills/cryptocompare/__init__.py` (the process-wide skill cache).
Machine integers do not occur; Python strings are `String`, wall-clock
readings are `ℚ`, and Python dicts are association lists with in-place
update semantics. -/

namespace Engine

/-- Association-list lookup, modelling Python dict access `d[k]` /
`k in d`: the value of the first pair whose key matches. -/
def alookup {α : Type} (l : List (String × α)) (k : String) : Option α :=
  (l.find? fun p => p.1 = k).map Prod.snd

/-- Python dict assignment `d[k] = v`: replaces the value in place when the
key is present (keeping its original position), otherwise appends a new
entry at the end.  This is exactly CPython's insertion-ordered dict. -/
def dinsert {α : Type} (l : List (String × α)) (k : String) (v : α) :
    List (String × α) :=
  if l.any fun p => p.1 = k then
    l.map fun p => if p.1 = k then (k, v) else p
  else l ++ [(k, v)]

theorem alookup_nil {α : Type} (k : String) : alookup ([] : List (String × α)) k = none := rfl

theorem alookup_cons {α : Type} (p : String × α) (l : List (String × α)) (k : String) :
    alookup (p :: l) k = if p.1 = k then some p.2 else alookup l k := by
  by_cases h : p.1 = k
  · simp [alookup, List.find?_cons, h]
  · simp [alookup, List.find?_cons, h]

theorem alookup_map_replace_self {α : Type} (l : List (String × α)) (k : String) (v : α)
    (h : (l.any fun p => p.1 = k) = true) :
    alookup (l.map fun p => if p.1 = k then (k, v) else p) k = some v := by
  induction l with
  | nil => simp at h
  | cons p t ih =>
    by_cases hp : p.1 = k
    · simp [alookup_cons, hp]
    · simp only [List.any_cons, Bool.or_eq_true, decide_eq_true_eq] at h
      rcases h with h | h
      · exact absurd h hp
      · simpa [alookup_cons, hp] using ih h

theorem alookup_map_replace_ne {α : Type} (l : List (String × α)) (k k' : String) (v : α)
    (h : k' ≠ k) :
    alookup (l.map fun p => if p.1 = k then (k, v) else p) k' = alookup l k' := by
  induction l with
  | nil => rfl
  | cons p t ih =>
    by_cases hp : p.1 = k
    · rw [List.map_cons, if_pos hp, alookup_cons, alookup_cons, if_neg (fun e => h e.symm),
        if_neg (fun e => h (hp ▸ e.symm))]
      exact ih
    · rw [List.map_cons, if_neg hp, alookup_cons, alookup_cons]
      split
      · rfl
      · exact ih

theorem alookup_append_single {α : Type} (l : List (String × α)) (k k' : String) (v : α) :
    alookup (l ++ [(k, v)]) k' =
      (alookup l k').elim (if k = k' then some v else none) some := by
  induction l with
  | nil =>
    by_cases h : k = k' <;> simp [alookup_cons, alookup_nil, h]
  | cons p t ih =>
    simp only [List.cons_append]
    rw [alookup_cons, alookup_cons]
    split
    · rfl
    · exact ih

theorem alookup_not_found {α : Type} (l : List (String × α)) (k : String)
    (h : ¬(l.any fun p => p.1 = k) = true) : alookup l k = none := by
  induction l with
  | nil => rfl
  | cons p t ih =>
    simp only [List.any_cons, Bool.or_eq_true, decide_eq_true_eq, not_or] at h
    rw [alookup_cons, if_neg h.1]
    exact ih (by simpa using h.2)

theorem alookup_dinsert_self {α : Type} (l : List (String × α)) (k : String) (v : α) :
    alookup (dinsert l k v) k = some v := by
  unfold dinsert
  split
  · exact alookup_map_replace_self l k v (by assumption)
  · rename_i h
    rw [alookup_append_single, alookup_not_found l k h]
    simp

theorem alookup_dinsert_ne {α : Type} (l : List (String × α)) (k k' : String) (v : α)
    (h : k' ≠ k) : alookup (dinsert l k v) k' = alookup l k' := by
  unfold dinsert
  split
  · exact alookup_map_replace_ne l k k' v h
  · rw [alookup_append_single, if_neg (fun e => h e.symm)]
    cases alookup l k' <;> rfl

/-! ### CryptoCompare skill cache (`skills/cryptocompare/__init__.py`)

The six skill classes are stateless tool wrappers; the module keeps a
process-wide cache `_cache : dict[str, CryptoCompareBaseTool]` keyed by
skill name only.  A tool instance records the constructor arguments it was
built with. -/

inductive CCSkillKind : Type
  | fetchNews
  | fetchPrice
  | fetchTradingSignals
  | fetchTopMarketCap
  | fetchTopExchanges
  | fetchTopVolume
deriving DecidableEq, Repr

/-- A constructed CryptoCompare tool instance: which class it is, and the
`api_key=` and `skill_store=` constructor arguments it was built with. -/
structure CryptoCompareTool : Type where
  kind : CCSkillKind
  api_key : String
  skill_store : Nat
deriving DecidableEq, Repr

/-- The module-level `_cache` dict. -/
abbrev CCCache := List (String × CryptoCompareTool)

/-- The repeated per-branch body of `get_cryptocompare_skill`:
`if name not in _cache: _cache[name] = C(api_key=..., skill_store=...)`
then `return _cache[name]`.  Returns the tool together with the updated
cache. -/
def cc_cached_get (cache : CCCache) (name : String) (t : CryptoCompareTool) :
    CryptoCompareTool × CCCache :=
  match alookup cache name with
  | some t0 => (t0, cache)
  | none => (t, dinsert cache name t)

/-- `get_cryptocompare_skill(name, api_key, store)`.  Raises `ValueError`
on an empty api key or an unknown name; otherwise returns the cached
instance for `name`, constructing and caching one on first use. -/
def get_cryptocompare_skill (cache : CCCache) (name : String) (api_key : String)
    (store : Nat) : Except String (CryptoCompareTool × CCCache) :=
  if api_key = "" then
    Except.error "CryptoCompare API key is empty"
  else if name = "fetch_news" then
    Except.ok (cc_cached_get cache name ⟨CCSkillKind.fetchNews, api_key, store⟩)
  else if name = "fetch_price" then
    Except.ok (cc_cached_get cache name ⟨CCSkillKind.fetchPrice, api_key, store⟩)
  else if name = "fetch_trading_signals" then
    Except.ok (cc_cached_get cache name ⟨CCSkillKind.fetchTradingSignals, api_key, store⟩)
  else if name = "fetch_top_market_cap" then
    Except.ok (cc_cached_get cache name ⟨CCSkillKind.fetchTopMarketCap, api_key, store⟩)
  else if name = "fetch_top_exchanges" then
    Except.ok (cc_cached_get cache name ⟨CCSkillKind.fetchTopExchanges, api_key, store⟩)
  else if name = "fetch_top_volume" then
    Except.ok (cc_cached_get cache name ⟨CCSkillKind.fetchTopVolume, api_key, store⟩)
  else
    Except.error ("Unknown CryptoCompare skill: " ++ name)

/-- The six known skill names, in source order. -/
def ccSkillNames : List String :=
  ["fetch_news", "fetch_price", "fetch_trading_signals",
   "fetch_top_market_cap", "fetch_top_exchanges", "fetch_top_volume"]

theorem cc_cached_get_hit (cache : CCCache) (name : String) (t t0 : CryptoCompareTool)
    (h : alookup cache name = some t0) : cc_cached_get cache name t = (t0, cache) := by
  simp [cc_cached_get, h]

theorem cc_cached_get_miss (cache : CCCache) (name : String) (t : CryptoCompareTool)
    (h : alookup cache name = none) :
    cc_cached_get cache name t = (t, dinsert cache name t) := by
  simp [cc_cached_get, h]

/-- C10: the process-wide memoization cache for CryptoCompare skills is
keyed by skill name only, not by credentials.  For any known skill name not
yet in the cache, a first call with non-empty `api_key` `k1` constructs and
caches an instance bound to `k1`; any later call with a different non-empty
`api_key` `k2` (and even a different store) returns that same cached
instance, still bound to `k1`, leaving the cache unchanged; an empty
`api_key` always raises, cached or not. -/
theorem cryptocompare_cache_keyed_by_name_only
    (cache : CCCache) (name k1 k2 : String) (s1 s2 : Nat)
    (hname : name ∈ ccSkillNames) (hmiss : alookup cache name = none)
    (h1 : k1 ≠ "") (h2 : k2 ≠ "") :
    ∃ t cache',
      get_cryptocompare_skill cache name k1 s1 = Except.ok (t, cache') ∧
      t.api_key = k1 ∧
      get_cryptocompare_skill cache' name k2 s2 = Except.ok (t, cache') ∧
      (∀ (c : CCCache) (s : Nat),
        get_cryptocompare_skill c name "" s =
          Except.error "CryptoCompare API key is empty") := by
  have hempty : ∀ (c : CCCache) (s : Nat),
      get_cryptocompare_skill c name "" s =
        Except.error "CryptoCompare API key is empty" := by
    intro c s
    simp [get_cryptocompare_skill]
  have branch : ∀ kind : CCSkillKind,
      (∀ (c : CCCache) (k : String) (s : Nat), k ≠ "" →
        get_cryptocompare_skill c name k s =
          Except.ok (cc_cached_get c name ⟨kind, k, s⟩)) →
      ∃ t cache',
        get_cryptocompare_skill cache name k1 s1 = Except.ok (t, cache') ∧
        t.api_key = k1 ∧
        get_cryptocompare_skill cache' name k2 s2 = Except.ok (t, cache') ∧
        (∀ (c : CCCache) (s : Nat),
          get_cryptocompare_skill c name "" s =
            Except.error "CryptoCompare API key is empty") := by
    intro kind hrun
    refine ⟨⟨kind, k1, s1⟩, dinsert cache name ⟨kind, k1, s1⟩, ?_, rfl, ?_, hempty⟩
    · rw [hrun cache k1 s1 h1, cc_cached_get_miss _ _ _ hmiss]
    · rw [hrun _ k2 s2 h2,
        cc_cached_get_hit _ _ _ _ (alookup_dinsert_self cache name ⟨kind, k1, s1⟩)]
  fin_cases hname
  · exact branch CCSkillKind.fetchNews
      (fun c k s hk => by simp [get_cryptocompare_skill, hk])
  · exact branch CCSkillKind.fetchPrice
      (fun c k s hk => by simp [get_cryptocompare_skill, hk])
  · exact branch CCSkillKind.fetchTradingSignals
      (fun c k s hk => by simp [get_cryptocompare_skill, hk])
  · exact branch CCSkillKind.fetchTopMarketCap
      (fun c k s hk => by simp [get_cryptocompare_skill, hk])
  · exact branch CCSkillKind.fetchTopExchanges
      (fun c k s hk => by simp [get_cryptocompare_skill, hk])
  · exact branch CCSkillKind.fetchTopVolume
      (fun c k s hk => by simp [get_cryptocompare_skill, hk])

/-- Witness for C10 at a concrete input: empty cache, the `fetch_price`
skill, first call with key `"k1"`, second with key `"k2"`. -/
theorem cryptocompare_cache_keyed_by_name_only_witness :
    ∃ t cache',
      get_cryptocompare_skill [] "fetch_price" "k1" 0 = Except.ok (t, cache') ∧
      t.api_key = "k1" ∧
      get_cryptocompare_skill cache' "fetch_price" "k2" 3 = Except.ok (t, cache') ∧
      (∀ (c : CCCache) (s : Nat),
        get_cryptocompare_skill c "fetch_price" "" s =
          Except.error "CryptoCompare API key is empty") :=
  cryptocompare_cache_keyed_by_name_only [] "fetch_price" "k1" "k2" 0 3
    (by decide) rfl (by decide) (by decide)

/-! ### Agent cache and invalidation (`agent_executor`, engine.py 409-430)

The module keeps two global dicts: `agents : dict[str, CompiledGraph]` and
`agents_updated : dict[str, datetime]`.  Compiled graphs are identified by
a freshness counter `nextGraph`: `create_agent` always returns a new
object, modelled as a graph id never used before.  The `updated_at`
timestamp is an abstract `Nat`.  Wall-clock time spent rebuilding
(`time.perf_counter() - start`) is a parameter `elapsed : ℚ`. -/

/-- The fields of the fetched `Agent` config that `agent_executor` reads. -/
structure AgentCfg : Type where
  updated_at : Nat
deriving DecidableEq, Repr

/-- The process-wide cache state: the two global dicts plus the freshness
counter for compiled-graph identities. -/
structure EngineState : Type where
  agents : List (String × Nat)
  agentsUpdated : List (String × Nat)
  nextGraph : Nat
deriving DecidableEq, Repr

/-- Cache effect of `initialize_agent(aid)` (engine.py 115-406): it caches
the freshly fetched `agent.updated_at` (line 146) and stores the newly
compiled graph under `aid` (line 398).  The tool-assembly pipeline inside
the build is modelled separately below. -/
def initialize_agent_cache (st : EngineState) (aid : String) (updatedAt : Nat) :
    EngineState :=
  { agents := dinsert st.agents aid st.nextGraph,
    agentsUpdated := dinsert st.agentsUpdated aid updatedAt,
    nextGraph := st.nextGraph + 1 }

inductive EngineError : Type
  | agentNotFound
deriving DecidableEq, Repr

/-- `agent_executor(agent_id) -> (CompiledGraph, float)` (engine.py
409-430).  `agent` is the result of the `Agent.get` database fetch;
`elapsed` is the wall-clock time a rebuild takes.  Returns the graph id,
the `cold_start_cost`, and the updated global state. -/
def agent_executor (st : EngineState) (agent_id : String) (agent : Option AgentCfg)
    (elapsed : ℚ) : Except EngineError (Nat × ℚ × EngineState) :=
  match agent with
  | none => Except.error EngineError.agentNotFound
  | some a =>
    let needs_reinit : Prop :=
      (alookup st.agents agent_id).isSome = true ∧
        (alookup st.agentsUpdated agent_id = none ∨
          alookup st.agentsUpdated agent_id ≠ some a.updated_at)
    if alookup st.agents agent_id = none ∨ needs_reinit then
      let st' := initialize_agent_cache st agent_id a.updated_at
      Except.ok ((alookup st'.agents agent_id).getD 0, elapsed, st')
    else
      Except.ok ((alookup st.agents agent_id).getD 0, 0, st)

instance (st : EngineState) (agent_id : String) (a : AgentCfg) :
    Decidable ((alookup st.agents agent_id).isSome = true ∧
      (alookup st.agentsUpdated agent_id = none ∨
        alookup st.agentsUpdated agent_id ≠ some a.updated_at)) :=
  inferInstance

/-- C1: invalidation correctness of the executor lookup.  With the cache
well-formed (every cached graph id is older than `nextGraph`) and a
strictly positive rebuild time: a cache hit with matching `updated_at`
returns the cached graph instance unchanged with `cold_start = 0`; a miss
or a timestamp mismatch rebuilds, returning a graph instance distinct from
every previously cached one, replaces both cache entries, and reports
`cold_start = elapsed > 0`. -/
theorem agent_executor_invalidation
    (st : EngineState) (aid : String) (a : AgentCfg) (elapsed : ℚ) (g : Nat)
    (hfresh : (st.agents.all fun p => p.2 < st.nextGraph) = true)
    (helapsed : 0 < elapsed) :
    ((alookup st.agents aid = some g ∧
        alookup st.agentsUpdated aid = some a.updated_at) →
      agent_executor st aid (some a) elapsed = Except.ok (g, 0, st)) ∧
    ((alookup st.agents aid = none ∨
        alookup st.agentsUpdated aid ≠ some a.updated_at) →
      ∃ st', agent_executor st aid (some a) elapsed =
          Except.ok (st.nextGraph, elapsed, st') ∧
        alookup st'.agents aid = some st.nextGraph ∧
        alookup st'.agentsUpdated aid = some a.updated_at ∧
        (∀ p ∈ st.agents, p.2 ≠ st.nextGraph) ∧
        0 < elapsed) := by
  constructor
  · rintro ⟨hg, hu⟩
    rw [agent_executor, if_neg, hg]
    · rfl
    · rintro (hnone | ⟨-, hnone | hne⟩)
      · rw [hg] at hnone; exact Option.noConfusion hnone
      · rw [hu] at hnone; exact Option.noConfusion hnone
      · exact hne hu
  · intro h
    refine ⟨initialize_agent_cache st aid a.updated_at, ?_, ?_, ?_, ?_, helapsed⟩
    · rw [agent_executor, if_pos, initialize_agent_cache]
      · simp only [alookup_dinsert_self, Option.getD_some]
      · rcases h with hnone | hne
        · exact Or.inl hnone
        · cases hg : alookup st.agents aid with
          | none => exact Or.inl rfl
          | some g0 => exact Or.inr ⟨rfl, Or.inr hne⟩
    · exact alookup_dinsert_self _ _ _
    · exact alookup_dinsert_self _ _ _
    · intro p hp
      have := List.all_eq_true.mp hfresh p hp
      exact Nat.ne_of_lt (by simpa using this)

/-- Witness for C1: a state caching agent `"a"` with graph `7` and
timestamp `3`; a hit with `updated_at = 3` returns graph `7` and zero cold
start; a stale fetch with `updated_at = 4` rebuilds to graph `10`. -/
theorem agent_executor_invalidation_witness :
    (agent_executor ⟨[("a", 7)], [("a", 3)], 10⟩ "a" (some ⟨3⟩) 1 =
      Except.ok (7, 0, ⟨[("a", 7)], [("a", 3)], 10⟩)) ∧
    (∃ st', agent_executor ⟨[("a", 7)], [("a", 3)], 10⟩ "a" (some ⟨4⟩) 1 =
        Except.ok (10, 1, st') ∧
      alookup st'.agents "a" = some 10 ∧
      alookup st'.agentsUpdated "a" = some 4 ∧
      (∀ p ∈ [("a", 7)], Prod.snd p ≠ 10) ∧
      (0 : ℚ) < 1) := by
  constructor
  · exact (agent_executor_invalidation ⟨[("a", 7)], [("a", 3)], 10⟩ "a" ⟨3⟩ 1 7
      (by decide) (by norm_num)).1 ⟨by rfl, by rfl⟩
  · exact (agent_executor_invalidation ⟨[("a", 7)], [("a", 3)], 10⟩ "a" ⟨4⟩ 1 7
      (by decide) (by norm_num)).2 (by decide)

/-! ### Tool de-duplication (`initialize_agent`, engine.py 358-359)

`tools = list({tool.name: tool for tool in tools}.values())`: a dict
comprehension over the assembled tool list in iteration order, then its
values.  CPython dict semantics: a repeated key keeps its first insertion
position but is overwritten with the later value. -/

/-- A tool instance: its registered name, and an identity distinguishing
separate instances. -/
structure Tool : Type where
  name : String
  instId : Nat
deriving DecidableEq, Repr

/-- The dict built by `{tool.name: tool for tool in tools}`. -/
def buildToolDict (ts : List Tool) : List (String × Tool) :=
  ts.foldl (fun d t => dinsert d t.name t) []

/-- Engine.py line 359: de-duplicate the working tool list by name. -/
def dedup_tools (ts : List Tool) : List Tool :=
  (buildToolDict ts).map Prod.snd

theorem map_fst_replace {α : Type} (l : List (String × α)) (k : String) (v : α) :
    ((l.map fun p => if p.1 = k then (k, v) else p).map Prod.fst) = l.map Prod.fst := by
  induction l with
  | nil => rfl
  | cons p t ih =>
    by_cases hp : p.1 = k
    · simp [hp, ih]
    · simp [hp, ih]

theorem mem_dinsert {α : Type} (P : String × α → Prop) (l : List (String × α))
    (k : String) (v : α) (hl : ∀ p ∈ l, P p) (hkv : P (k, v)) :
    ∀ p ∈ dinsert l k v, P p := by
  unfold dinsert
  split
  · intro p hp
    rcases List.mem_map.mp hp with ⟨q, hq, rfl⟩
    by_cases hqk : q.1 = k
    · rw [if_pos hqk]; exact hkv
    · rw [if_neg hqk]; exact hl q hq
  · intro p hp
    rcases List.mem_append.mp hp with hp | hp
    · exact hl p hp
    · rcases List.mem_singleton.mp hp with rfl
      exact hkv

theorem nodup_keys_dinsert {α : Type} (l : List (String × α)) (k : String) (v : α)
    (h : (l.map Prod.fst).Nodup) : ((dinsert l k v).map Prod.fst).Nodup := by
  unfold dinsert
  split
  · rw [map_fst_replace]; exact h
  · rename_i hany
    rw [List.map_append]
    refine List.Nodup.append h (List.nodup_singleton k) ?_
    intro x hx hx'
    rcases List.mem_singleton.mp hx' with rfl
    rcases List.mem_map.mp hx with ⟨q, hq, rfl⟩
    exact hany (List.any_eq_true.mpr ⟨q, hq, by simp⟩)

theorem buildToolDict_name_eq_key (ts : List Tool) :
    ∀ p ∈ buildToolDict ts, p.2.name = p.1 := by
  suffices h : ∀ (d : List (String × Tool)), (∀ p ∈ d, p.2.name = p.1) →
      ∀ p ∈ ts.foldl (fun d t => dinsert d t.name t) d, p.2.name = p.1 by
    exact h [] (by simp)
  induction ts with
  | nil => intro d hd; simpa using hd
  | cons t ts ih =>
    intro d hd
    rw [List.foldl_cons]
    exact ih _ (mem_dinsert _ _ _ _ hd rfl)

theorem buildToolDict_keys_nodup (ts : List Tool) :
    ((buildToolDict ts).map Prod.fst).Nodup := by
  suffices h : ∀ (d : List (String × Tool)), (d.map Prod.fst).Nodup →
      ((ts.foldl (fun d t => dinsert d t.name t) d).map Prod.fst).Nodup by
    exact h [] (by simp)
  induction ts with
  | nil => intro d hd; simpa using hd
  | cons t ts ih =>
    intro d hd
    rw [List.foldl_cons]
    exact ih _ (nodup_keys_dinsert _ _ _ hd)

theorem getLast?_cons_getD {α : Type} (a : α) (l : List α) :
    (a :: l).getLast? = some (l.getLast?.getD a) := by
  induction l generalizing a with
  | nil => rfl
  | cons b l ih => rw [List.getLast?_cons_cons, ih b, Option.getD_some]

theorem alookup_foldl_dinsert (ts : List Tool) (d : List (String × Tool)) (n : String) :
    alookup (ts.foldl (fun d t => dinsert d t.name t) d) n =
      ((ts.filter fun t => t.name = n).getLast?).or (alookup d n) := by
  induction ts generalizing d with
  | nil =>
    rw [List.foldl_nil, List.filter_nil, List.getLast?_nil]
    cases alookup d n <;> rfl
  | cons t ts ih =>
    rw [List.foldl_cons, ih]
    by_cases hn : t.name = n
    · rw [List.filter_cons_of_pos (by simpa using hn), getLast?_cons_getD]
      subst hn
      rw [alookup_dinsert_self]
      cases (ts.filter fun t' => t'.name = t.name).getLast? <;> rfl
    · rw [List.filter_cons_of_neg (by simpa using hn),
        alookup_dinsert_ne _ _ _ _ (fun e => hn e.symm)]

theorem map_snd_filter_of_nodup_keys (D : List (String × Tool)) (n : String)
    (hname : ∀ p ∈ D, p.2.name = p.1) (hnodup : (D.map Prod.fst).Nodup) :
    (D.map Prod.snd).filter (fun t => t.name = n) = (alookup D n).toList := by
  induction D with
  | nil => rfl
  | cons p D ih =>
    obtain ⟨k, v⟩ := p
    have hv : v.name = k := hname (k, v) (List.mem_cons_self _ _)
    have hnodup' : (D.map Prod.fst).Nodup ∧ k ∉ D.map Prod.fst := by
      rw [List.map_cons, List.nodup_cons] at hnodup
      exact ⟨hnodup.2, hnodup.1⟩
    rw [List.map_cons, alookup_cons]
    by_cases hk : k = n
    · subst hk
      rw [List.filter_cons_of_pos (by simpa using hv), if_pos rfl]
      have hrest : (D.map Prod.snd).filter (fun t => t.name = k) = [] := by
        rw [List.filter_eq_nil_iff]
        intro t ht
        rcases List.mem_map.mp ht with ⟨⟨k', v'⟩, hmem, rfl⟩
        have he : v'.name = k' := hname _ (List.mem_cons_of_mem _ hmem)
        have hk' : k' ≠ k := by
          intro e; subst e
          exact hnodup'.2 (List.mem_map.mpr ⟨(k', v'), hmem, rfl⟩)
        simp [he, hk']
      rw [hrest]
      rfl
    · rw [List.filter_cons_of_neg (by simp [hv, hk]), if_neg hk]
      exact ih (fun q hq => hname q (List.mem_cons_of_mem _ hq)) hnodup'.1

/-- C2: after tool assembly, the de-duplicated tool list contains at most
one tool per name, and for every name the retained instance is the last
tool with that name that was appended to the working list — later skill
categories in the fixed iteration order override earlier same-named tools
(last write wins). -/
theorem dedup_tools_last_write_wins (ts : List Tool) (n : String) :
    ((dedup_tools ts).map Tool.name).Nodup ∧
    (dedup_tools ts).filter (fun t => t.name = n) =
      ((ts.filter fun t => t.name = n).getLast?).toList := by
  have hname := buildToolDict_name_eq_key ts
  have hnodup := buildToolDict_keys_nodup ts
  constructor
  · have he : (dedup_tools ts).map Tool.name = (buildToolDict ts).map Prod.fst := by
      rw [dedup_tools, List.map_map]
      exact List.map_congr_left (fun p hp => hname p hp)
    rw [he]
    exact hnodup
  · rw [dedup_tools, map_snd_filter_of_nodup_keys _ _ hname hnodup, buildToolDict,
      alookup_foldl_dinsert ts [] n, alookup_nil]
    cases (ts.filter fun t => t.name = n).getLast? <;> rfl

/-! ### CDP wallet provisioning (`initialize_agent`, engine.py 187-209)

For a wallet-enabled agent the build passes `agent_data.cdp_wallet_data`
into `CdpAgentkitWrapper(**values)` when it exists; per the external
provisioning-service contract (`create_account()`), the wrapper reuses
supplied material and only provisions a new wallet when none is supplied.
When no prior material existed, the freshly exported wallet is persisted
with `agent_store.set_data` (line 198) before `CdpToolkit` constructs any
tool from the wallet handle (line 204).  The observable actions are
recorded as an event trace. -/

inductive CdpEvent : Type
  | provision
  | persistWallet
  | buildTools
deriving DecidableEq, Repr

/-- One build's CDP block: given the persisted wallet material (if any) and
the material a fresh provisioning would export, returns the event trace of
the block and the persisted material afterwards. -/
def initialize_cdp (walletData : Option String) (freshWallet : String) :
    List CdpEvent × Option String :=
  let provisionEvents :=
    match walletData with
    | some _ => ([] : List CdpEvent)
    | none => [CdpEvent.provision]
  let persisted :=
    match walletData with
    | some w => (([] : List CdpEvent), some w)
    | none => ([CdpEvent.persistWallet], some freshWallet)
  (provisionEvents ++ persisted.1 ++ [CdpEvent.buildTools], persisted.2)

/-- `n` successive builds of the same agent, threading the persisted
wallet material; `fresh k` is the material the `k`-th build would export if
it provisioned. -/
def cdp_builds (walletData : Option String) (fresh : Nat → String) :
    Nat → List CdpEvent × Option String
  | 0 => ([], walletData)
  | n + 1 =>
    let prev := cdp_builds walletData fresh n
    let step := initialize_cdp prev.2 (fresh n)
    (prev.1 ++ step.1, step.2)

theorem cdp_builds_some (w : String) (fresh : Nat → String) (n : Nat) :
    cdp_builds (some w) fresh n = (List.replicate n CdpEvent.buildTools, some w) := by
  induction n with
  | zero => rfl
  | succ n ih =>
    rw [cdp_builds, ih]
    simp [initialize_cdp, List.replicate_succ']

theorem cdp_builds_none (fresh : Nat → String) (n : Nat) :
    cdp_builds none fresh (n + 1) =
      (CdpEvent.provision :: CdpEvent.persistWallet ::
        List.replicate (n + 1) CdpEvent.buildTools, some (fresh 0)) := by
  induction n with
  | zero => rfl
  | succ n ih =>
    rw [cdp_builds, ih]
    simp [initialize_cdp, List.replicate_succ']

/-- C3: across any number of builds of a wallet-enabled agent, the
external provisioning service runs at most once; existing material is
reused and never re-provisioned; and whenever a provision happens, the
fresh material is persisted strictly after the provision and strictly
before any tool is constructed from the wallet handle, across the whole
trace. -/
theorem cdp_provision_at_most_once (walletData : Option String)
    (fresh : Nat → String) (n : Nat) :
    ((cdp_builds walletData fresh n).1.count CdpEvent.provision ≤ 1) ∧
    (∀ w : String, walletData = some w →
      (cdp_builds walletData fresh n).1.count CdpEvent.provision = 0) ∧
    (∀ i : Nat, (cdp_builds walletData fresh n).1.get? i = some CdpEvent.provision →
      ∃ j : Nat, i < j ∧
        (cdp_builds walletData fresh n).1.get? j = some CdpEvent.persistWallet ∧
        (∀ k : Nat, (cdp_builds walletData fresh n).1.get? k =
          some CdpEvent.buildTools → j < k)) := by
  cases walletData with
  | some w =>
    rw [cdp_builds_some]
    refine ⟨?_, fun w' _ => ?_, fun i hi => ?_⟩
    · simp [List.count_replicate]
    · simp [List.count_replicate]
    · exact absurd (List.eq_of_mem_replicate (List.get?_mem hi)) (by decide)
  | none =>
    cases n with
    | zero =>
      exact ⟨by simp [cdp_builds], fun w hw => Option.noConfusion hw,
        fun i hi => by simp [cdp_builds] at hi⟩
    | succ n =>
      rw [cdp_builds_none]
      refine ⟨?_, fun w hw => Option.noConfusion hw, fun i hi => ?_⟩
      · simp [List.count_cons, List.count_replicate]
      · have hi0 : i = 0 := by
          match i with
          | 0 => rfl
          | 1 => simp at hi
          | (m + 2) =>
            exfalso
            simp only [List.get?_cons_succ] at hi
            exact absurd (List.eq_of_mem_replicate (List.get?_mem hi)) (by decide)
        subst hi0
        refine ⟨1, Nat.zero_lt_one, rfl, ?_⟩
        intro k hk
        match k with
        | 0 => simp at hk
        | 1 => simp at hk
        | (m + 2) => exact Nat.lt_of_lt_of_le Nat.one_lt_two (by omega)

/-- Witness for C3: three builds starting with no persisted material
provision at most once, the first trace entry is that provision, and it is
followed by a persist that precedes every tool construction. -/
theorem cdp_provision_at_most_once_witness :
    ((cdp_builds none (fun _ => "w") 3).1.count CdpEvent.provision ≤ 1) ∧
    (∃ j : Nat, 0 < j ∧
      (cdp_builds none (fun _ => "w") 3).1.get? j = some CdpEvent.persistWallet ∧
      (∀ k : Nat, (cdp_builds none (fun _ => "w") 3).1.get? k =
        some CdpEvent.buildTools → j < k)) :=
  ⟨(cdp_provision_at_most_once none (fun _ => "w") 3).1,
   (cdp_provision_at_most_once none (fun _ => "w") 3).2.2 0 (by rfl)⟩

/-! ### Prompt-array assembly (`initialize_agent`, engine.py 365-387)

After tool assembly the build composes the message list handed to
`ChatPromptTemplate.from_messages`: the escaped system prompt and a
placeholder, then the twitter-identity section and the `prompt_append`
override.  For models whose identifier starts with `"deepseek"` the
twitter section's `insert(0, ...)` is commented out (line 376: `pass`) and
the `prompt_append` section is inserted at position 0; for all other
models both are appended.  An empty string stands for a missing/falsy
section. -/

def lbrace : Char := Char.ofNat 123

def rbrace : Char := Char.ofNat 125

/-- `s.replace("{", "{{").replace("}", "}}")`. -/
def escapeBraces (s : String) : String :=
  String.mk (s.data.flatMap fun c =>
    if c = lbrace then [lbrace, lbrace]
    else if c = rbrace then [rbrace, rbrace]
    else [c])

/-- Character-level prefix test (Python `str.startswith`). -/
def charsStartWith : List Char → List Char → Bool
  | [], _ => true
  | _ :: _, [] => false
  | p :: ps, c :: cs => p = c && charsStartWith ps cs

/-- `s.startswith(pre)`. -/
def pyStartsWith (s pre : String) : Bool :=
  charsStartWith pre.data s.data

/-- The `prompt_array` handed to `ChatPromptTemplate.from_messages`, as a
list of `(role, content)` pairs. -/
def build_prompt_array (model : String) (prompt : String) (twitter_prompt : String)
    (prompt_append : String) : List (String × String) :=
  let escaped_prompt := escapeBraces prompt
  let arr : List (String × String) :=
    [("system", escaped_prompt), ("placeholder", "\x7bmessages\x7d")]
  let arr :=
    if twitter_prompt ≠ "" then
      if pyStartsWith model "deepseek" then arr
      else arr ++ [("system", twitter_prompt)]
    else arr
  if prompt_append ≠ "" then
    let escaped_append := escapeBraces prompt_append
    if pyStartsWith model "deepseek" then ("system", escaped_append) :: arr
    else arr ++ [("system", escaped_append)]
  else arr

/-- C8 (as amended): for `"deepseek"`-prefixed models the `prompt_append`
override is prepended as a leading system message, but the twitter-identity
section is dropped entirely; for other models both sections are appended
after the base prompt and placeholder. -/
theorem deepseek_prompt_sections (model prompt twitter_prompt prompt_append : String)
    (htw : twitter_prompt ≠ "") (hpa : prompt_append ≠ "") :
    (pyStartsWith model "deepseek" = true →
      build_prompt_array model prompt twitter_prompt prompt_append =
        [("system", escapeBraces prompt_append),
         ("system", escapeBraces prompt),
         ("placeholder", "\x7bmessages\x7d")]) ∧
    (pyStartsWith model "deepseek" = false →
      build_prompt_array model prompt twitter_prompt prompt_append =
        [("system", escapeBraces prompt),
         ("placeholder", "\x7bmessages\x7d"),
         ("system", twitter_prompt),
         ("system", escapeBraces prompt_append)]) := by
  constructor
  · intro hds
    simp [build_prompt_array, htw, hpa, hds]
  · intro hds
    simp [build_prompt_array, htw, hpa, hds]

/-- Witness for C8's amended statement at concrete inputs. -/
theorem deepseek_prompt_sections_witness :
    (build_prompt_array "deepseek-chat" "base" "tw-identity" "extra" =
      [("system", "extra"), ("system", "base"),
       ("placeholder", "\x7bmessages\x7d")]) ∧
    (build_prompt_array "gpt-4o" "base" "tw-identity" "extra" =
      [("system", "base"), ("placeholder", "\x7bmessages\x7d"),
       ("system", "tw-identity"), ("system", "extra")]) :=
  ⟨(deepseek_prompt_sections "deepseek-chat" "base" "tw-identity" "extra"
      (by decide) (by decide)).1 (by decide),
   (deepseek_prompt_sections "gpt-4o" "base" "tw-identity" "extra"
      (by decide) (by decide)).2 (by decide)⟩

/-- Counterexample to C8 as stated: for a deepseek model with an active
twitter integration, the twitter-identity text appears nowhere in the
prompt message list (and in particular is not a leading system message),
while for a non-deepseek model it does appear. -/
theorem deepseek_twitter_section_dropped :
    ("tw-identity" ∉
      (build_prompt_array "deepseek-chat" "base" "tw-identity" "extra").map Prod.snd) ∧
    ("tw-identity" ∈
      (build_prompt_array "gpt-4o" "base" "tw-identity" "extra").map Prod.snd) := by
  constructor
  · decide
  · decide

/-! ### Memory cleanup (`clean_agent_memory`, engine.py 620-695)

With `clean_agent_memory=True`, the engine builds the SQL pattern
`agent_id + "-" + (thread_id if thread_id.strip() else "%")` and runs
`DELETE FROM checkpoints/checkpoint_writes/checkpoint_blobs WHERE
thread_id like :value`.  The three tables are modelled as lists of thread
keys, and `LIKE` as full-string matching where `%` matches any sequence
and `_` any single character (the engine's patterns contain no escape
sequences, which are not modelled). -/

/-- Does `f` hold of some suffix of the list (itself included)? -/
def suffixesMatch (f : List Char → Bool) : List Char → Bool
  | [] => f []
  | k :: ks => f (k :: ks) || suffixesMatch f ks

/-- SQL `LIKE` matching over characters: `%` consumes any (possibly empty)
sequence, i.e. the rest of the pattern must match some suffix; `_` matches
exactly one character; every other character matches itself. -/
def likeM : List Char → List Char → Bool
  | [], ks => ks.isEmpty
  | p :: ps, ks =>
    if p = '%' then suffixesMatch (likeM ps) ks
    else
      match ks with
      | [] => false
      | k :: ks' => (p = '_' || p = k) && likeM ps ks'

/-- `LIKE` matching on strings: `value LIKE pattern`. -/
def likeMatch (pattern s : String) : Bool :=
  likeM pattern.data s.data

/-- A pattern fragment free of the `LIKE` wildcards `%` and `_`. -/
def wildcardFreeL (cs : List Char) : Bool :=
  cs.all fun c => c ≠ '%' && c ≠ '_'

/-- Python `str.strip()` (whitespace from both ends). -/
def pyStrip (s : String) : String :=
  String.mk (((s.data.dropWhile Char.isWhitespace).reverse.dropWhile
    Char.isWhitespace).reverse)

/-- The modelled persisted checkpoint store: the three tables' thread keys. -/
structure MemoryDB : Type where
  checkpoints : List String
  checkpoint_writes : List String
  checkpoint_blobs : List String
deriving DecidableEq, Repr

inductive CleanError : Type
  | validationError
deriving DecidableEq, Repr

/-- `clean_agent_memory(agent_id, thread_id, clean_agent_memory,
clean_skills_memory)` restricted to its effect on the three checkpoint
tables (the skill-data tables live outside the modelled store and are
untouched by the checkpoint claims).  Raises HTTP 400 when both flags are
false. -/
def clean_agent_memory (db : MemoryDB) (agent_id : String) (thread_id : String)
    (cleanAgent cleanSkills : Bool) : Except CleanError MemoryDB :=
  if ¬ cleanSkills = true ∧ ¬ cleanAgent = true then
    Except.error CleanError.validationError
  else if cleanAgent then
    let t := pyStrip thread_id
    let q_suffix := if t ≠ "" then t else "%"
    let pattern := agent_id ++ "-" ++ q_suffix
    Except.ok
      { checkpoints := db.checkpoints.filter fun k => !(likeMatch pattern k),
        checkpoint_writes := db.checkpoint_writes.filter fun k => !(likeMatch pattern k),
        checkpoint_blobs := db.checkpoint_blobs.filter fun k => !(likeMatch pattern k) }
  else Except.ok db

theorem likeM_nil_pat (ks : List Char) : likeM [] ks = ks.isEmpty := rfl

theorem likeM_pct_cons (ps ks : List Char) :
    likeM ('%' :: ps) ks = suffixesMatch (likeM ps) ks := by
  rw [likeM.eq_def]
  simp

theorem likeM_char_cons (p : Char) (ps ks : List Char) (hp : p ≠ '%') :
    likeM (p :: ps) ks =
      match ks with
      | [] => false
      | k :: ks' => (p = '_' || p = k) && likeM ps ks' := by
  rw [likeM.eq_def]
  simp [hp]

theorem likeM_pct_singleton (ks : List Char) : likeM ['%'] ks = true := by
  rw [likeM_pct_cons]
  induction ks with
  | nil => rfl
  | cons c ks ih => rw [suffixesMatch, ih]; simp


theorem likeM_exact (p : List Char) (k : List Char)
    (hw : wildcardFreeL p = true) : likeM p k = true ↔ k = p := by
  induction p generalizing k with
  | nil =>
    rw [likeM_nil_pat]
    cases k <;> simp
  | cons c p ih =>
    have hc : (c ≠ '%' ∧ c ≠ '_') ∧ wildcardFreeL p = true := by
      rw [wildcardFreeL, List.all_cons] at hw
      simp only [Bool.and_eq_true, decide_eq_true_eq] at hw
      exact ⟨hw.1, hw.2⟩
    cases k with
    | nil => rw [likeM_char_cons _ _ _ hc.1.1]; simp
    | cons x xs =>
      rw [likeM_char_cons _ _ _ hc.1.1]
      simp only [Bool.and_eq_true, Bool.or_eq_true, decide_eq_true_eq,
        List.cons.injEq]
      rw [ih xs hc.2]
      constructor
      · rintro ⟨hcx | hcx, hrest⟩
        · exact absurd hcx hc.1.2
        · exact ⟨hcx.symm, hrest⟩
      · rintro ⟨hcx, hrest⟩
        exact ⟨Or.inr hcx.symm, hrest⟩

theorem wildcardFreeL_cons {c : Char} {p : List Char}
    (hw : wildcardFreeL (c :: p) = true) :
    (c ≠ '%' ∧ c ≠ '_') ∧ wildcardFreeL p = true := by
  rw [wildcardFreeL, List.all_cons] at hw
  simp only [Bool.and_eq_true, decide_eq_true_eq] at hw
  exact ⟨hw.1, hw.2⟩

theorem likeM_pct_iff (p : List Char) (hw : wildcardFreeL p = true) :
    ∀ k : List Char, likeM (p ++ ['%']) k = true ↔ charsStartWith p k = true := by
  induction p with
  | nil =>
    intro k
    simp [likeM_pct_singleton, charsStartWith]
  | cons c p ih =>
    intro k
    have hc := wildcardFreeL_cons hw
    cases k with
    | nil =>
      rw [List.cons_append, likeM_char_cons _ _ _ hc.1.1]
      rw [charsStartWith]
    | cons x xs =>
      rw [List.cons_append, likeM_char_cons _ _ _ hc.1.1, charsStartWith]
      simp only [Bool.and_eq_true, Bool.or_eq_true, decide_eq_true_eq]
      rw [ih hc.2 xs]
      constructor
      · rintro ⟨h1 | h1, h2⟩
        · exact absurd h1 hc.1.2
        · exact ⟨h1, h2⟩
      · rintro ⟨h1, h2⟩
        exact ⟨Or.inr h1, h2⟩

theorem string_data_append (a b : String) : (a ++ b).data = a.data ++ b.data := rfl

theorem string_eq_iff_data {a b : String} : a = b ↔ a.data = b.data := by
  constructor
  · intro h; rw [h]
  · intro h; cases a; cases b; exact congrArg String.mk h

theorem bool_of_iff {a b : Bool} (h : (a = true) ↔ (b = true)) : a = b := by
  cases a <;> cases b <;> simp_all

theorem charsStartWith_append_self (p t : List Char) :
    charsStartWith p (p ++ t) = true := by
  induction p with
  | nil => rfl
  | cons c p ih => rw [List.cons_append, charsStartWith]; simp [ih]

theorem wildcardFreeL_append {p q : List Char} (hp : wildcardFreeL p = true)
    (hq : wildcardFreeL q = true) : wildcardFreeL (p ++ q) = true := by
  rw [wildcardFreeL, List.all_append]
  rw [wildcardFreeL] at hp hq
  rw [hp, hq]
  rfl

theorem likeMatch_exact (pattern k : String)
    (hw : wildcardFreeL pattern.data = true) :
    likeMatch pattern k = (k == pattern) := by
  apply bool_of_iff
  rw [likeMatch, likeM_exact _ _ hw, beq_iff_eq]
  exact string_eq_iff_data.symm

theorem likeMatch_pct (pre k : String) (hw : wildcardFreeL pre.data = true) :
    likeMatch (pre ++ "%") k = charsStartWith pre.data k.data := by
  apply bool_of_iff
  rw [likeMatch]
  exact likeM_pct_iff pre.data hw k.data

/-- With a non-empty stripped wildcard-free `thread_id`, the cleanup is an
exact-key deletion across the three tables. -/
theorem clean_thread_eq
    (db : MemoryDB) (agent_id thread_id : String) (cs : Bool)
    (hwa : wildcardFreeL agent_id.data = true)
    (hstrip : pyStrip thread_id = thread_id) (hne : thread_id ≠ "")
    (hwt : wildcardFreeL thread_id.data = true) :
    clean_agent_memory db agent_id thread_id true cs = Except.ok
      { checkpoints := db.checkpoints.filter fun k =>
          !(k == agent_id ++ "-" ++ thread_id),
        checkpoint_writes := db.checkpoint_writes.filter fun k =>
          !(k == agent_id ++ "-" ++ thread_id),
        checkpoint_blobs := db.checkpoint_blobs.filter fun k =>
          !(k == agent_id ++ "-" ++ thread_id) } := by
  have hval : ¬(¬cs = true ∧ ¬(true : Bool) = true) := by simp
  have hwpat : wildcardFreeL (agent_id ++ "-" ++ thread_id).data = true :=
    wildcardFreeL_append (wildcardFreeL_append hwa (by decide)) hwt
  unfold clean_agent_memory
  rw [if_neg hval, if_pos rfl]
  simp only [hstrip]
  rw [if_pos hne]
  rw [List.filter_congr fun k _ =>
      congrArg Bool.not (likeMatch_exact (agent_id ++ "-" ++ thread_id) k hwpat),
    List.filter_congr fun k _ =>
      congrArg Bool.not (likeMatch_exact (agent_id ++ "-" ++ thread_id) k hwpat),
    List.filter_congr fun k _ =>
      congrArg Bool.not (likeMatch_exact (agent_id ++ "-" ++ thread_id) k hwpat)]

/-- With an empty `thread_id`, the cleanup deletes exactly the rows whose
key starts with `agent_id ++ "-"`. -/
theorem clean_empty_eq
    (db : MemoryDB) (agent_id : String) (cs : Bool)
    (hwa : wildcardFreeL agent_id.data = true) :
    clean_agent_memory db agent_id "" true cs = Except.ok
      { checkpoints := db.checkpoints.filter fun k =>
          !(charsStartWith (agent_id ++ "-").data k.data),
        checkpoint_writes := db.checkpoint_writes.filter fun k =>
          !(charsStartWith (agent_id ++ "-").data k.data),
        checkpoint_blobs := db.checkpoint_blobs.filter fun k =>
          !(charsStartWith (agent_id ++ "-").data k.data) } := by
  have hval : ¬(¬cs = true ∧ ¬(true : Bool) = true) := by simp
  have hwpre : wildcardFreeL (agent_id ++ "-").data = true :=
    wildcardFreeL_append hwa (by decide)
  unfold clean_agent_memory
  rw [if_neg hval, if_pos rfl]
  have hstrip0 : pyStrip "" = "" := rfl
  simp only [hstrip0]
  rw [if_neg (by simp)]
  rw [List.filter_congr fun k _ =>
      congrArg Bool.not (likeMatch_pct (agent_id ++ "-") k hwpre),
    List.filter_congr fun k _ =>
      congrArg Bool.not (likeMatch_pct (agent_id ++ "-") k hwpre),
    List.filter_congr fun k _ =>
      congrArg Bool.not (likeMatch_pct (agent_id ++ "-") k hwpre)]

/-- C7 (amended): with `clean_agent=True` and a non-empty stripped
`thread_id` containing no SQL wildcard characters (for a wildcard-free
`agent_id`), exactly the rows of the three checkpoint tables whose thread
key equals `agent_id ++ "-" ++ thread_id` are deleted; with an empty
`thread_id`, every row whose key starts with `agent_id ++ "-"` is deleted
(in particular all threads of that agent). -/
theorem clean_agent_memory_scoping
    (db : MemoryDB) (agent_id thread_id : String) (cs : Bool)
    (hwa : wildcardFreeL agent_id.data = true)
    (hstrip : pyStrip thread_id = thread_id) (hne : thread_id ≠ "")
    (hwt : wildcardFreeL thread_id.data = true) :
    (clean_agent_memory db agent_id thread_id true cs = Except.ok
      { checkpoints := db.checkpoints.filter fun k =>
          !(k == agent_id ++ "-" ++ thread_id),
        checkpoint_writes := db.checkpoint_writes.filter fun k =>
          !(k == agent_id ++ "-" ++ thread_id),
        checkpoint_blobs := db.checkpoint_blobs.filter fun k =>
          !(k == agent_id ++ "-" ++ thread_id) }) ∧
    (clean_agent_memory db agent_id "" true cs = Except.ok
      { checkpoints := db.checkpoints.filter fun k =>
          !(charsStartWith (agent_id ++ "-").data k.data),
        checkpoint_writes := db.checkpoint_writes.filter fun k =>
          !(charsStartWith (agent_id ++ "-").data k.data),
        checkpoint_blobs := db.checkpoint_blobs.filter fun k =>
          !(charsStartWith (agent_id ++ "-").data k.data) }) :=
  ⟨clean_thread_eq db agent_id thread_id cs hwa hstrip hne hwt,
   clean_empty_eq db agent_id cs hwa⟩

/-- Witness for C7's amended statement: agent `"a"`, threads `t1` and
`t2`; cleaning thread `t1` removes exactly the `a-t1` rows and leaves the
`a-t2` rows; cleaning with an empty thread id removes both. -/
theorem clean_agent_memory_scoping_witness :
    (clean_agent_memory ⟨["a-t1", "a-t2"], ["a-t1"], ["a-t2"]⟩ "a" "t1" true false =
      Except.ok ⟨["a-t2"], [], ["a-t2"]⟩) ∧
    (clean_agent_memory ⟨["a-t1", "a-t2"], ["a-t1"], ["a-t2"]⟩ "a" "" true false =
      Except.ok ⟨[], [], []⟩) := by
  have h := clean_agent_memory_scoping ⟨["a-t1", "a-t2"], ["a-t1"], ["a-t2"]⟩
    "a" "t1" false (by decide) rfl (by decide) (by decide)
  exact ⟨h.1.trans (by rfl), h.2.trans (by rfl)⟩

/-- Counterexample to C7 as stated: with `thread_id = "t_"` (a legal thread
name containing no `%`), the deletion pattern `a-t_` treats `_` as the SQL
single-character wildcard, so the row of the *different* thread `t1` of the
same agent is deleted even though its key is not `a-t_`. -/
theorem clean_agent_memory_underscore_counterexample :
    clean_agent_memory ⟨["a-t1"], [], []⟩ "a" "t_" true false =
      Except.ok ⟨[], [], []⟩ ∧
    ("a-t1" : String) ≠ "a" ++ "-" ++ "t_" := by
  constructor
  · rfl
  · decide

/-- C9: checkpoint deletion is scoped by the SQL LIKE pattern
`agent_id-%`/`agent_id-thread_id`, not by exact agent ownership: with an
empty `thread_id`, rows whose key belongs to any agent whose id begins
with `agent_id ++ "-"` are deleted as well; and a supplied `thread_id`
containing `%` is treated as a wildcard rather than matched literally. -/
theorem clean_agent_memory_like_overmatch
    (db : MemoryDB) (a b t : String) (hwa : wildcardFreeL a.data = true) :
    (∀ db', clean_agent_memory db a "" true false = Except.ok db' →
      (a ++ "-" ++ b ++ "-" ++ t) ∉ db'.checkpoints) ∧
    (clean_agent_memory ⟨["x-t1", "x-t2"], [], []⟩ "x" "t%" true false =
      Except.ok ⟨[], [], []⟩ ∧ ("x-t1" : String) ≠ "x" ++ "-" ++ "t%") := by
  refine ⟨?_, by rfl, by decide⟩
  intro db' hdb'
  rw [clean_empty_eq db a false hwa] at hdb'
  have hdb'' := Except.ok.inj hdb'
  subst hdb''
  intro hmem
  have h := (List.mem_filter.mp hmem).2
  rw [Bool.not_eq_true'] at h
  have hpre : charsStartWith (a ++ "-").data ((a ++ "-" ++ b ++ "-" ++ t)).data = true := by
    have : (a ++ "-" ++ b ++ "-" ++ t).data =
        (a ++ "-").data ++ (b.data ++ "-".data ++ t.data) := by
      simp only [string_data_append, List.append_assoc]
    rw [this]
    exact charsStartWith_append_self _ _
  rw [hpre] at h
  exact Bool.noConfusion h

/-- Witness for C9: cleaning agent `"agentA"` with empty thread id deletes
the checkpoint row of the distinct agent `"agentA-sub"`, and a `thread_id`
of `"t%"` deletes rows it does not literally equal. -/
theorem clean_agent_memory_like_overmatch_witness :
    (("agentA" ++ "-" ++ "sub" ++ "-" ++ "t9") ∉
      (MemoryDB.mk [] [] []).checkpoints) ∧
    (clean_agent_memory ⟨["x-t1", "x-t2"], [], []⟩ "x" "t%" true false =
      Except.ok ⟨[], [], []⟩ ∧ ("x-t1" : String) ≠ "x" ++ "-" ++ "t%") :=
  ⟨(clean_agent_memory_like_overmatch ⟨["agentA-sub-t9"], [], []⟩ "agentA" "sub" "t9"
      (by decide)).1 ⟨[], [], []⟩ (by rfl),
   (clean_agent_memory_like_overmatch ⟨["agentA-sub-t9"], [], []⟩ "agentA" "sub" "t9"
      (by decide)).2⟩

/-! ### `textwrap.shorten(text, width=100, placeholder="...")`

The executor records successful tool responses through CPython's
`textwrap.shorten`: the text is whitespace-collapsed
(`' '.join(text.strip().split())`) and then wrapped by `TextWrapper` with
`max_lines=1`, so the single produced line — *including* the placeholder
when truncation happens — fits in `width` characters; when nothing fits,
the result is just the placeholder.  The model below reproduces
`TextWrapper._wrap_chunks` for `max_lines=1` with the default options
(`drop_whitespace=True`, `break_long_words=True`, no indents); the chunk
splitting interleaves the collapsed words with single-space chunks, which
matches CPython's `wordsep_re` for text without hyphens (hyphen-aware
sub-splitting of words is not modelled). -/

/-- `str.split()`: split on runs of whitespace, dropping empty pieces.
`acc` accumulates the current word reversed. -/
def splitWSAux (acc : List Char) : List Char → List (List Char)
  | [] => if acc.isEmpty then [] else [acc.reverse]
  | c :: cs =>
    if c.isWhitespace then
      if acc.isEmpty then splitWSAux [] cs
      else acc.reverse :: splitWSAux [] cs
    else splitWSAux (c :: acc) cs

def splitWS (cs : List Char) : List (List Char) :=
  splitWSAux [] cs

/-- Total character count of a chunk list (`sum(map(len, cur_line))`). -/
def lenSum (l : List (List Char)) : Nat :=
  (l.map List.length).sum

/-- `chunk.strip() == ''`. -/
def isWSChunk (c : List Char) : Bool :=
  c.all Char.isWhitespace

/-- The greedy inner loop of `_wrap_chunks`: move chunks onto the current
line while they fit.  Returns the taken chunks and the remainder. -/
def greedyTake (width : Nat) : Nat → List (List Char) →
    List (List Char) × List (List Char)
  | _, [] => ([], [])
  | curLen, c :: cs =>
    if curLen + c.length ≤ width then
      let r := greedyTake width (curLen + c.length) cs
      (c :: r.1, r.2)
    else ([], c :: cs)

/-- Drop the last chunk of the line if it is all whitespace
(`drop_whitespace` handling at the end of a line). -/
def dropLastWS (line : List (List Char)) : List (List Char) :=
  match line.getLast? with
  | some c => if isWSChunk c then line.dropLast else line
  | none => line

/-- The placeholder back-off loop of `_wrap_chunks` for `max_lines=1`,
walking the line's chunks from the end (the argument is the reversed
line): pop chunks until a non-whitespace end fits together with the
placeholder; `none` when the line is exhausted. -/
def truncLoopRev (width : Nat) (ph : List Char) :
    List (List Char) → Option (List (List Char))
  | [] => none
  | c :: rest =>
    if !(isWSChunk c) && (lenSum (c :: rest) + ph.length ≤ width) then
      some ((c :: rest).reverse ++ [ph])
    else truncLoopRev width ph rest

/-- `_handle_long_word`: when the line is full and the next chunk is
longer than the whole width, break it, putting as much as fits onto the
current line (`break_long_words=True`). -/
def wrapAfterLong (width : Nat) (g : List (List Char) × List (List Char)) :
    List (List Char) × List (List Char) :=
  match g.2 with
  | [] => (g.1, [])
  | c :: cs =>
    if width < c.length then
      let space_left := if width < 1 then 1 else width - lenSum g.1
      (g.1 ++ [c.take space_left], c.drop space_left :: cs)
    else (g.1, c :: cs)

/-- The tail of `_wrap_chunks` for `max_lines=1`: emit the line when all
that remains is nothing or one whitespace chunk and it fits; otherwise
back off and append the placeholder; when even that fails, the result is
the bare placeholder. -/
def wrapFinish (width : Nat) (ph : List Char) (cur_line rest : List (List Char)) :
    List Char :=
  if cur_line.isEmpty then []
  else if (rest.isEmpty || (rest.length = 1 && isWSChunk (rest.headD []))) &&
      (lenSum cur_line ≤ width) then
    cur_line.flatten
  else
    match truncLoopRev width ph cur_line.reverse with
    | some l => l.flatten
    | none => ph

/-- `TextWrapper(max_lines=1, placeholder=ph).fill` on an already
whitespace-collapsed chunk list. -/
def wrapShortenChunks (width : Nat) (ph : List Char)
    (chunks : List (List Char)) : List Char :=
  wrapFinish width ph
    (dropLastWS (wrapAfterLong width (greedyTake width 0 chunks)).1)
    (wrapAfterLong width (greedyTake width 0 chunks)).2

/-- `textwrap.shorten(text, width, placeholder=ph)` on characters. -/
def pyShortenCore (width : Nat) (ph : List Char) (text : List Char) : List Char :=
  wrapShortenChunks width ph (List.intersperse [' '] (splitWS text))

/-- `textwrap.shorten(s, width=100, placeholder="...")` as used by the
executor (engine.py 560-562). -/
def pyShorten (s : String) : String :=
  String.mk (pyShortenCore 100 ['.', '.', '.'] s.data)

theorem greedyTake_len (width : Nat) :
    ∀ (cs : List (List Char)) (curLen : Nat), curLen ≤ width →
      curLen + lenSum (greedyTake width curLen cs).1 ≤ width := by
  intro cs
  induction cs with
  | nil => intro curLen h; simpa [greedyTake, lenSum] using h
  | cons c cs ih =>
    intro curLen h
    rw [greedyTake]
    split
    · rename_i hfit
      have := ih (curLen + c.length) hfit
      simp only [lenSum, List.map_cons, List.sum_cons] at this ⊢
      omega
    · simpa [lenSum] using h

theorem lenSum_append (l₁ l₂ : List (List Char)) :
    lenSum (l₁ ++ l₂) = lenSum l₁ + lenSum l₂ := by
  simp [lenSum]

theorem lenSum_dropLast (l : List (List Char)) : lenSum l.dropLast ≤ lenSum l := by
  induction l with
  | nil => exact le_rfl
  | cons c l ih =>
    cases l with
    | nil => simp [lenSum]
    | cons d l' =>
      simp only [List.dropLast_cons₂, lenSum, List.map_cons, List.sum_cons] at ih ⊢
      omega

theorem lenSum_dropLastWS (l : List (List Char)) :
    lenSum (dropLastWS l) ≤ lenSum l := by
  rw [dropLastWS]
  cases h : l.getLast? with
  | none => exact le_rfl
  | some c =>
    show lenSum (if isWSChunk c = true then l.dropLast else l) ≤ lenSum l
    by_cases hw : isWSChunk c = true
    · simpa [hw] using lenSum_dropLast l
    · simp [hw]

theorem truncLoopRev_len (width : Nat) (ph : List Char) :
    ∀ (rev l : List (List Char)), truncLoopRev width ph rev = some l →
      l.flatten.length ≤ width := by
  intro rev
  induction rev with
  | nil => intro l h; exact absurd h (by rw [truncLoopRev]; simp)
  | cons c rest ih =>
    intro l h
    rw [truncLoopRev] at h
    split at h
    · rename_i hcond
      injection h with h2
      subst h2
      simp only [Bool.and_eq_true, decide_eq_true_eq] at hcond
      rw [List.flatten_append, List.length_append, List.length_flatten,
        List.map_reverse, List.sum_reverse]
      have h1 : (([ph] : List (List Char)).flatten).length = ph.length := by simp
      rw [h1]
      simpa [lenSum] using hcond.2
    · exact ih l h

theorem wrapFinish_length (width : Nat) (ph : List Char)
    (cur_line rest : List (List Char)) (hp : ph.length ≤ width) :
    (wrapFinish width ph cur_line rest).length ≤ width := by
  unfold wrapFinish
  split
  · simp
  · split
    · rename_i hguard
      rw [List.length_flatten]
      simp only [Bool.and_eq_true, decide_eq_true_eq] at hguard
      simpa [lenSum] using hguard.2
    · split
      · rename_i l hl
        exact truncLoopRev_len width ph _ l hl
      · exact hp

/-- `textwrap.shorten` never produces more than `width` characters (the
placeholder counts towards the width, it is not added on top). -/
theorem wrapShortenChunks_length (width : Nat) (ph : List Char)
    (chunks : List (List Char)) (hp : ph.length ≤ width) :
    (wrapShortenChunks width ph chunks).length ≤ width :=
  wrapFinish_length width ph _ _ hp

theorem pyShorten_length (s : String) : (pyShorten s).length ≤ 100 :=
  wrapShortenChunks_length 100 ['.', '.', '.'] _ (by decide)

/-! ### Streaming executor (`execute_agent`, engine.py 433-617)

`execute_agent` drives one turn: it saves the inbound message, obtains the
executor and `cold_start_cost`, then consumes the graph's event stream.
The stream is modelled as a list of items: a yielded chunk together with
the `time.perf_counter()` reading taken at the top of its `try` block and
an optional exception raised while processing it (any statement inside the
loop body can raise; the model raises before the chunk's effects), or an
exception raised by the stream iterator itself between events — the
`async for` pulls items *outside* the per-event `try`, so such an
exception is not caught.  Message ids and the constant agent/chat ids are
omitted from the message record; `last` starts at `start +
cold_start_cost` (line 459). -/

/-- One entry of `cached_tool_step.tool_calls`. -/
structure ToolCall : Type where
  id : String
  name : String
  args : String
deriving DecidableEq, Repr

structure Usage : Type where
  input_tokens : Nat
  output_tokens : Nat
deriving DecidableEq, Repr

/-- A model-generated message inside an `"agent"` chunk. -/
structure AgentMsg : Type where
  tool_calls : List ToolCall
  content : String
  usage_metadata : Option Usage
deriving DecidableEq, Repr

/-- One tool-result message inside a `"tools"` chunk; `tool_call_id =
none` models a message without that attribute. -/
structure ToolMsg : Type where
  tool_call_id : Option String
  status : String
  content : String
deriving DecidableEq, Repr

inductive ChatAuthor : Type
  | agent
  | skill
  | system
deriving DecidableEq, Repr

/-- One `ChatMessageSkillCall` record. -/
structure SkillCall : Type where
  name : String
  parameters : String
  success : Bool
  response : Option String
  error_message : Option String
deriving DecidableEq, Repr

/-- The fields of a persisted `ChatMessage` that the executor computes. -/
structure ChatMessageM : Type where
  author_type : ChatAuthor
  message : String
  skill_calls : List SkillCall
  input_tokens : Nat
  output_tokens : Nat
  time_cost : ℚ
  cold_start_cost : Option ℚ
deriving DecidableEq, Repr

/-- `msg.usage_metadata.get("input_tokens", 0) if ... else 0`. -/
def usageInput : Option Usage → Nat
  | some u => u.input_tokens
  | none => 0

def usageOutput : Option Usage → Nat
  | some u => u.output_tokens
  | none => 0

/-- One stream chunk, as shape-dispatched by the loop: an `"agent"` chunk
with its single message, a `"tools"` chunk with its result messages, the
ignored `"memory_manager"` housekeeping chunk, or an unrecognized shape
(logged and ignored). -/
inductive Chunk : Type
  | agent (msg : AgentMsg)
  | tools (msgs : List ToolMsg)
  | memoryManager
  | other
deriving DecidableEq, Repr

/-- Build one skill-call record for a matched `(call, result)` pair
(engine.py 548-562): errors record the message content as
`error_message`; successful responses are recorded in full in debug mode
and shortened via `textwrap.shorten(width=100, placeholder="...")`
otherwise. -/
def mkSkillCall (debug : Bool) (call : ToolCall) (msg : ToolMsg) : SkillCall :=
  if msg.status = "error" then
    { name := call.name, parameters := call.args, success := false,
      response := none, error_message := some msg.content }
  else if debug then
    { name := call.name, parameters := call.args, success := true,
      response := some msg.content, error_message := none }
  else
    { name := call.name, parameters := call.args, success := true,
      response := some (pyShorten msg.content), error_message := none }

/-- The double loop over `chunk["tools"]["messages"]` and
`cached_tool_step.tool_calls`: each result bearing a `tool_call_id` is
matched to the first held call with that id (skipped when absent). -/
def skillCallsOf (debug : Bool) (calls : List ToolCall) (msgs : List ToolMsg) :
    List SkillCall :=
  msgs.filterMap fun m =>
    match m.tool_call_id with
    | none => none
    | some tid => (calls.find? fun c => c.id = tid).map fun c => mkSkillCall debug c m

/-- The loop-local executor state. -/
structure ExecState : Type where
  cached_tool_step : Option AgentMsg
  cold_start_cost : ℚ
  last : ℚ
  resp : List ChatMessageM
deriving DecidableEq, Repr

/-- Processing of one successfully yielded chunk (engine.py 489-600),
given the `this_time` reading. -/
def process_chunk (debug : Bool) (st : ExecState) (c : Chunk) (this_time : ℚ) :
    ExecState :=
  match c with
  | Chunk.agent msg =>
    if msg.tool_calls ≠ [] then
      { st with cached_tool_step := some msg }
    else if msg.content ≠ "" then
      let m : ChatMessageM :=
        { author_type := ChatAuthor.agent, message := msg.content, skill_calls := [],
          input_tokens := usageInput msg.usage_metadata,
          output_tokens := usageOutput msg.usage_metadata,
          time_cost := this_time - st.last,
          cold_start_cost :=
            if 0 < st.cold_start_cost then some st.cold_start_cost else none }
      { cached_tool_step := st.cached_tool_step,
        cold_start_cost := if 0 < st.cold_start_cost then 0 else st.cold_start_cost,
        last := this_time,
        resp := st.resp ++ [m] }
    else st
  | Chunk.tools msgs =>
    match st.cached_tool_step with
    | none => st
    | some step =>
      let m : ChatMessageM :=
        { author_type := ChatAuthor.skill, message := "",
          skill_calls := skillCallsOf debug step.tool_calls msgs,
          input_tokens := usageInput step.usage_metadata,
          output_tokens := usageOutput step.usage_metadata,
          time_cost := this_time - st.last,
          cold_start_cost :=
            if 0 < st.cold_start_cost then some st.cold_start_cost else none }
      { cached_tool_step := none,
        cold_start_cost := if 0 < st.cold_start_cost then 0 else st.cold_start_cost,
        last := this_time,
        resp := st.resp ++ [m] }
  | Chunk.memoryManager => st
  | Chunk.other => st

/-- One item of the consumed stream. -/
inductive StreamItem : Type
  | chunk (c : Chunk) (this_time : ℚ) (exc : Option (String × ℚ))
  | streamError (e : String)
deriving DecidableEq, Repr

/-- The SYSTEM error message persisted by the `except` handler
(engine.py 605-613): text `"Error in agent:\n  " + str(e)` and
`time_cost = time.perf_counter() - start`. -/
def mkErrorMessage (e : String) (elapsed : ℚ) : ChatMessageM :=
  { author_type := ChatAuthor.system, message := "Error in agent:\n  " ++ e,
    skill_calls := [], input_tokens := 0, output_tokens := 0,
    time_cost := elapsed, cold_start_cost := none }

/-- The `async for` loop: a yielded chunk is processed (its exception, if
any, is caught: the SYSTEM error message is persisted and the accumulated
list returned); an exception from the stream iterator itself propagates. -/
def run_stream (debug : Bool) (start : ℚ) (st : ExecState) :
    List StreamItem → Except String (List ChatMessageM)
  | [] => Except.ok st.resp
  | StreamItem.streamError e :: _ => Except.error e
  | StreamItem.chunk c t none :: rest =>
    run_stream debug start (process_chunk debug st c t) rest
  | StreamItem.chunk _ _ (some (e, et)) :: _ =>
    Except.ok (st.resp ++ [mkErrorMessage e (et - start)])

/-- `execute_agent` from the point where the stream is consumed: `resp`
starts empty and `last = start + cold_start_cost`. -/
def execute_agent (debug : Bool) (start cold_start_cost : ℚ)
    (items : List StreamItem) : Except String (List ChatMessageM) :=
  run_stream debug start
    { cached_tool_step := none, cold_start_cost := cold_start_cost,
      last := start + cold_start_cost, resp := [] } items

/-- C4 (amended): an exception raised while *processing* a stream event is
caught — the executor persists a SYSTEM message carrying the exception
text with `time_cost` equal to the elapsed time since turn start, appends
it to the accumulated messages and returns them; a stream with no
iterator-level failure always yields a list.  But an exception raised by
the stream iterator itself between events propagates to the caller even
when messages were already persisted. -/
theorem execute_agent_error_handling (debug : Bool) (start : ℚ) (st : ExecState) :
    (∀ (c : Chunk) (t : ℚ) (e : String) (et : ℚ) (rest : List StreamItem),
      run_stream debug start st (StreamItem.chunk c t (some (e, et)) :: rest) =
        Except.ok (st.resp ++ [mkErrorMessage e (et - start)])) ∧
    (∀ (e : String) (rest : List StreamItem),
      run_stream debug start st (StreamItem.streamError e :: rest) =
        Except.error e) ∧
    (∀ items : List StreamItem,
      (∀ i ∈ items, ∀ e, i ≠ StreamItem.streamError e) →
      ∃ msgs, run_stream debug start st items = Except.ok msgs) := by
  refine ⟨fun c t e et rest => rfl, fun e rest => rfl, ?_⟩
  intro items
  induction items generalizing st with
  | nil => intro _; exact ⟨st.resp, rfl⟩
  | cons i rest ih =>
    intro h
    cases i with
    | streamError e =>
      exact absurd rfl (h (StreamItem.streamError e) (List.mem_cons_self _ _) e)
    | chunk c t exc =>
      cases exc with
      | none =>
        exact ih (process_chunk debug st c t)
          (fun i hi e => h i (List.mem_cons_of_mem _ hi) e)
      | some p =>
        obtain ⟨e, et⟩ := p
        exact ⟨st.resp ++ [mkErrorMessage e (et - start)], rfl⟩

/-- Witness for C4's amended statement: a processing exception on the
first event yields the single SYSTEM message; an exception-free stream
yields a list. -/
theorem execute_agent_error_handling_witness :
    (run_stream false 0 ⟨none, 0, 0, []⟩
        [StreamItem.chunk Chunk.other 2 (some ("boom", 3))] =
      Except.ok (([] : List ChatMessageM) ++ [mkErrorMessage "boom" (3 - 0)])) ∧
    (∃ msgs, run_stream false 0 ⟨none, 0, 0, []⟩ [StreamItem.chunk Chunk.other 2 none] =
      Except.ok msgs) :=
  ⟨(execute_agent_error_handling false 0 ⟨none, 0, 0, []⟩).1 Chunk.other 2 "boom" 3 [],
   (execute_agent_error_handling false 0 ⟨none, 0, 0, []⟩).2.2
     [StreamItem.chunk Chunk.other 2 none] (by intro i hi e; simp at hi; simp [hi])⟩

/-- Counterexample to C4 as stated: after one AGENT message has been
persisted, an exception raised by the event stream itself (between
events) escapes to the caller instead of being converted into a returned
list. -/
theorem stream_exception_escapes_counterexample :
    (execute_agent false 0 0
        [StreamItem.chunk (Chunk.agent ⟨[], "hello", none⟩) 1 none] =
      Except.ok [⟨ChatAuthor.agent, "hello", [], 0, 0, 1 - (0 + 0), none⟩]) ∧
    (execute_agent false 0 0
        [StreamItem.chunk (Chunk.agent ⟨[], "hello", none⟩) 1 none,
         StreamItem.streamError "boom"] =
      Except.error "boom") := by
  constructor
  · rfl
  · rfl

/-- C5 (amended): the recorded response of a successful tool call is the
full response in debug mode, and `textwrap.shorten(response, width=100,
placeholder="...")` otherwise — the whitespace-collapsed response
truncated at word boundaries so that the result *including* the ellipsis
marker fits in 100 characters (never 100 characters plus the marker). -/
theorem tool_response_truncation (call : ToolCall) (msg : ToolMsg)
    (hok : msg.status ≠ "error") :
    ((mkSkillCall true call msg).response = some msg.content) ∧
    ((mkSkillCall false call msg).response = some (pyShorten msg.content)) ∧
    ((pyShorten msg.content).length ≤ 100) := by
  refine ⟨?_, ?_, pyShorten_length msg.content⟩
  · simp [mkSkillCall, hok]
  · simp [mkSkillCall, hok]

/-- Witness for C5's amended statement at a concrete successful call. -/
theorem tool_response_truncation_witness :
    ((mkSkillCall true ⟨"i", "n", "a"⟩ ⟨some "i", "success", "r"⟩).response =
      some "r") ∧
    ((mkSkillCall false ⟨"i", "n", "a"⟩ ⟨some "i", "success", "r"⟩).response =
      some (pyShorten "r")) ∧
    ((pyShorten "r").length ≤ 100) :=
  tool_response_truncation ⟨"i", "n", "a"⟩ ⟨some "i", "success", "r"⟩ (by decide)

set_option maxRecDepth 10000 in
/-- Counterexample to C5 as stated: a successful 500-character single-word
response is recorded in non-debug mode as just `"..."` (3 characters), not
as its first 100 characters followed by the ellipsis marker. -/
theorem tool_response_truncation_counterexample :
    ((mkSkillCall false ⟨"i", "n", "a"⟩
        ⟨some "i", "success", String.mk (List.replicate 500 'a')⟩).response =
      some "...") ∧
    (("..." : String) ≠ String.mk (List.replicate 100 'a' ++ ['.', '.', '.'])) := by
  constructor
  · decide
  · decide

/-- Does the message carry a cold-start cost? -/
def carriesCold (m : ChatMessageM) : Bool :=
  m.cold_start_cost.isSome

/-- An AGENT- or SKILL-authored message (not a SYSTEM error entry). -/
def nonSystemMsg (m : ChatMessageM) : Bool :=
  m.author_type ≠ ChatAuthor.system

theorem process_chunk_cases (debug : Bool) (st : ExecState) (c : Chunk) (t : ℚ) :
    ((process_chunk debug st c t).resp = st.resp ∧
      (process_chunk debug st c t).cold_start_cost = st.cold_start_cost) ∨
    (∃ m, (process_chunk debug st c t).resp = st.resp ++ [m] ∧
      m.author_type ≠ ChatAuthor.system ∧
      m.cold_start_cost =
        (if 0 < st.cold_start_cost then some st.cold_start_cost else none) ∧
      (process_chunk debug st c t).cold_start_cost =
        (if 0 < st.cold_start_cost then 0 else st.cold_start_cost)) := by
  cases c with
  | agent msg =>
    rw [process_chunk]
    by_cases h1 : msg.tool_calls ≠ []
    · rw [if_pos h1]
      exact Or.inl ⟨rfl, rfl⟩
    · rw [if_neg h1]
      by_cases h2 : msg.content ≠ ""
      · rw [if_pos h2]
        exact Or.inr ⟨_, rfl, fun hx => ChatAuthor.noConfusion hx, rfl, rfl⟩
      · rw [if_neg h2]
        exact Or.inl ⟨rfl, rfl⟩
  | tools msgs =>
    cases hct : st.cached_tool_step with
    | none =>
      rw [process_chunk, hct]
      exact Or.inl ⟨rfl, rfl⟩
    | some step =>
      rw [process_chunk, hct]
      exact Or.inr ⟨_, rfl, fun hx => ChatAuthor.noConfusion hx, rfl, rfl⟩
  | memoryManager => exact Or.inl ⟨rfl, rfl⟩
  | other => exact Or.inl ⟨rfl, rfl⟩

theorem run_stream_cold (debug : Bool) (start : ℚ) :
    ∀ (items : List StreamItem) (st : ExecState) (msgs : List ChatMessageM),
      run_stream debug start st items = Except.ok msgs →
      ∃ suffix, msgs = st.resp ++ suffix ∧
        (suffix.filter carriesCold =
          (if 0 < st.cold_start_cost then (suffix.filter nonSystemMsg).take 1
           else [])) ∧
        (∀ m ∈ suffix, m.cold_start_cost.isSome = true →
          m.cold_start_cost = some st.cold_start_cost ∧
          m.author_type ≠ ChatAuthor.system) := by
  intro items
  induction items with
  | nil =>
    intro st msgs h
    rw [run_stream] at h
    refine ⟨[], by simpa using (Except.ok.inj h).symm, by simp, by simp⟩
  | cons i rest ih =>
    intro st msgs h
    cases i with
    | streamError e =>
      rw [run_stream] at h
      exact Except.noConfusion h
    | chunk c t exc =>
      cases exc with
      | some p =>
        obtain ⟨e, et⟩ := p
        rw [run_stream] at h
        refine ⟨[mkErrorMessage e (et - start)], (Except.ok.inj h).symm, ?_, ?_⟩
        · simp [carriesCold, nonSystemMsg, mkErrorMessage]
        · intro m hm hsome
          simp only [List.mem_singleton] at hm
          subst hm
          simp [mkErrorMessage] at hsome
      | none =>
        rw [run_stream] at h
        obtain ⟨suffix, hmsgs, hfilter, hall⟩ :=
          ih (process_chunk debug st c t) msgs h
        rcases process_chunk_cases debug st c t with
          ⟨hresp, hcold⟩ | ⟨m, hresp, hns, hm, hcold⟩
        · rw [hresp] at hmsgs
          rw [hcold] at hfilter hall
          exact ⟨suffix, hmsgs, hfilter, hall⟩
        · by_cases hpos : 0 < st.cold_start_cost
          · have hm' : m.cold_start_cost = some st.cold_start_cost := by
              rw [hm, if_pos hpos]
            have hcold' : (process_chunk debug st c t).cold_start_cost = 0 := by
              rw [hcold, if_pos hpos]
            have hsufnone : suffix.filter carriesCold = [] := by
              rw [hfilter, hcold']
              simp
            have hnocarry : ∀ m' ∈ suffix, carriesCold m' = false := by
              intro m' hmem
              have := List.filter_eq_nil_iff.mp hsufnone m' hmem
              exact Bool.not_eq_true _ ▸ (by simpa using this)
            refine ⟨m :: suffix, ?_, ?_, ?_⟩
            · rw [hmsgs, hresp, List.append_assoc]
              rfl
            · have hcm : carriesCold m = true := by
                rw [carriesCold, hm', Option.isSome_some]
              have hnm : nonSystemMsg m = true := by
                rw [nonSystemMsg]
                simpa using hns
              rw [if_pos hpos, List.filter_cons_of_pos hcm, hsufnone,
                List.filter_cons_of_pos hnm]
              rfl
            · intro m' hm'' hsome
              rcases List.mem_cons.mp hm'' with rfl | hmem
              · exact ⟨hm', hns⟩
              · exfalso
                have hfalse := hnocarry m' hmem
                rw [carriesCold] at hfalse
                rw [hsome] at hfalse
                exact Bool.noConfusion hfalse
          · have hm' : m.cold_start_cost = none := by
              rw [hm, if_neg hpos]
            have hcold' : (process_chunk debug st c t).cold_start_cost =
                st.cold_start_cost := by
              rw [hcold, if_neg hpos]
            refine ⟨m :: suffix, ?_, ?_, ?_⟩
            · rw [hmsgs, hresp, List.append_assoc]
              rfl
            · have hcm : ¬(carriesCold m = true) := by
                rw [carriesCold, hm']
                simp
              rw [List.filter_cons_of_neg hcm, hfilter, hcold', if_neg hpos,
                if_neg hpos]
            · intro m' hm'' hsome
              rcases List.mem_cons.mp hm'' with rfl | hmem
              · rw [hm'] at hsome
                exact absurd hsome (by simp)
              · have := hall m' hmem hsome
                rw [hcold'] at this
                exact this

/-- C6 (as amended): when a rebuild occurred (`cold > 0`), the messages
carrying a cold-start cost are exactly the first AGENT- or SKILL-authored
message of the turn (if any), with value `cold`; SYSTEM error messages
never carry it — so if the turn aborts before the first AGENT/SKILL
emission, no message carries the rebuild cost; with no rebuild, no message
carries any cold-start cost. -/
theorem cold_start_attribution (debug : Bool) (start cold : ℚ)
    (items : List StreamItem) (msgs : List ChatMessageM)
    (h : execute_agent debug start cold items = Except.ok msgs) :
    (msgs.filter carriesCold =
      (if 0 < cold then (msgs.filter nonSystemMsg).take 1 else [])) ∧
    (∀ m ∈ msgs, m.cold_start_cost.isSome = true →
      m.cold_start_cost = some cold ∧ m.author_type ≠ ChatAuthor.system) := by
  obtain ⟨suffix, hmsgs, hfilter, hall⟩ := run_stream_cold debug start items _ msgs h
  rw [List.nil_append] at hmsgs
  subst hmsgs
  exact ⟨hfilter, hall⟩

/-- Witness for C6's amended statement: a rebuild with cost 5 followed by
one AGENT emission — the emitted message carries `some 5`. -/
theorem cold_start_attribution_witness :
    (([⟨ChatAuthor.agent, "hi", [], 0, 0, (7:ℚ) - (0 + 5), some 5⟩] :
        List ChatMessageM).filter carriesCold =
      (if (0:ℚ) < 5 then
        (([⟨ChatAuthor.agent, "hi", [], 0, 0, (7:ℚ) - (0 + 5), some 5⟩] :
          List ChatMessageM).filter nonSystemMsg).take 1
       else [])) ∧
    (∀ m ∈ ([⟨ChatAuthor.agent, "hi", [], 0, 0, (7:ℚ) - (0 + 5), some 5⟩] :
        List ChatMessageM), m.cold_start_cost.isSome = true →
      m.cold_start_cost = some 5 ∧ m.author_type ≠ ChatAuthor.system) :=
  cold_start_attribution false 0 5
    [StreamItem.chunk (Chunk.agent ⟨[], "hi", none⟩) 7 none]
    [⟨ChatAuthor.agent, "hi", [], 0, 0, (7:ℚ) - (0 + 5), some 5⟩] (by rfl)

/-- Counterexample to C6 as stated: with `cold_start_cost = 5 > 0`, a turn
whose first event raises returns exactly one emitted ChatMessage — the
SYSTEM error entry — and it does *not* carry the recorded cold-start
cost, so no message of the turn does. -/
theorem cold_start_lost_on_early_error_counterexample :
    (execute_agent false 0 5 [StreamItem.chunk Chunk.other 1 (some ("boom", 2))] =
      Except.ok [mkErrorMessage "boom" (2 - 0)]) ∧
    (mkErrorMessage "boom" (2 - 0)).cold_start_cost = none ∧
    (0:ℚ) < 5 := by
  refine ⟨rfl, rfl, by norm_num⟩

end Engine
